import Mathlib

/-!
Verification of the NTP64 timestamp type (src/ntp64.rs).

The Rust type `NTP64(pub u64)` is modelled as a structure holding a natural
number below 2^64.  Machine `u64` arithmetic is modelled on `Nat` with an
explicit `% 2^64` (wrapping, i.e. release-mode semantics of the `+`/`-`
operators, which the spec documents as the defined behaviour).
`core::time::Duration` is modelled by its seconds and subsecond-nanoseconds
components, the latter below 10^9 (the invariant `Duration` maintains).
The fallible conversion `From<Duration>` (which asserts on its
precondition) returns an `Option`; the fallible string parse returns
`Except`.
-/

/-- Maximal number of seconds representable in the 32-bit part (Rust
constant MAX_NB_SEC = (1 << 32) - 1). -/
def MAX_NB_SEC : Nat := (1 <<< 32) - 1

/-- Number of NTP fractions per second (Rust constant FRAC_PER_SEC = 1 << 32). -/
def FRAC_PER_SEC : Nat := 1 <<< 32

/-- Bit mask for the fraction-of-a-second part (Rust constant FRAC_MASK). -/
def FRAC_MASK : Nat := 0xFFFFFFFF

/-- Number of nanoseconds in one second (Rust constant NANO_PER_SEC). -/
def NANO_PER_SEC : Nat := 1000000000

/-- The NTP 64-bit timestamp: Rust `pub struct NTP64(pub u64)`.
`v` is the raw 64-bit value. -/
structure NTP64 where
  v : Nat
  hv : v < 2 ^ 64

instance : DecidableEq NTP64 := fun a b =>
  if h : a.v = b.v then
    isTrue (by
      cases a with | mk va hva =>
      cases b with | mk vb hvb =>
      have h2 : va = vb := h
      subst h2
      rfl)
  else isFalse fun hc => h (congrArg NTP64.v hc)

/-- Model of `core::time::Duration`: seconds plus subsecond nanoseconds,
with the invariant `subsec_nanos() < NANO_PER_SEC` that the Rust type
maintains. -/
structure Duration where
  secs : Nat
  nanos : Nat
  hnanos : nanos < NANO_PER_SEC

/-- Rust `Duration::new(secs, nanos)`: normalizes nanoseconds overflow into
the seconds component. -/
def Duration.new (s n : Nat) : Duration :=
  ⟨s + n / NANO_PER_SEC, n % NANO_PER_SEC, Nat.mod_lt _ (by decide)⟩

namespace NTP64

/-- `NTP64::as_u64`: returns the raw 64-bit value unchanged. -/
def as_u64 (t : NTP64) : Nat := t.v

/-- `NTP64::as_secs`: the top 32 bits, `(self.0 >> 32) as u32`
(the final `% 2^32` is the `as u32` cast). -/
def as_secs (t : NTP64) : Nat := (t.v >>> 32) % 2 ^ 32

/-- `NTP64::subsec_nanos`: `((self.0 & FRAC_MASK) * NANO_PER_SEC / FRAC_PER_SEC) as u32`
(the final `% 2^32` is the `as u32` cast). -/
def subsec_nanos (t : NTP64) : Nat :=
  (((t.v &&& FRAC_MASK) * NANO_PER_SEC) / FRAC_PER_SEC) % 2 ^ 32

/-- `NTP64::to_duration`: `Duration::new(self.as_secs().into(), self.subsec_nanos())`. -/
def to_duration (t : NTP64) : Duration :=
  Duration.new t.as_secs t.subsec_nanos

/-- Wrapping 64-bit addition: `u64` `+` with the wraparound behaviour the
spec documents as defined. -/
def wrapAdd64 (x y : Nat) : Nat := (x + y) % 2 ^ 64

/-- Wrapping 64-bit subtraction of `y < 2^64` from `x`: `u64` `-` with the
wraparound behaviour the spec documents as defined. -/
def wrapSub64 (x y : Nat) : Nat := (x + (2 ^ 64 - y)) % 2 ^ 64

/-- `impl Add for NTP64`: `Self(self.0 + other.0)`. -/
def add (a b : NTP64) : NTP64 :=
  ⟨wrapAdd64 a.v b.v, Nat.mod_lt _ (by decide)⟩

/-- `impl Sub for NTP64`: `Self(self.0 - other.0)`. -/
def sub (a b : NTP64) : NTP64 :=
  ⟨wrapSub64 a.v b.v, Nat.mod_lt _ (by decide)⟩

/-- `impl Add<u64> for NTP64`: `Self(self.0 + other)`. -/
def addU64 (a : NTP64) (k : Nat) : NTP64 :=
  ⟨wrapAdd64 a.v k, Nat.mod_lt _ (by decide)⟩

/-- `impl Sub<u64> for NTP64`: `Self(self.0 - other)`. -/
def subU64 (a : NTP64) (k : Nat) : NTP64 :=
  ⟨wrapSub64 a.v k, Nat.mod_lt _ (by decide)⟩

/-- `impl Add<NTP64> for &NTP64`: forwards to `Add::add(*self, other)`. -/
def addRefVal (a b : NTP64) : NTP64 := add a b

/-- `impl Add<&NTP64> for NTP64`: forwards to `Add::add(self, *other)`. -/
def addValRef (a b : NTP64) : NTP64 := add a b

/-- `impl Add<&NTP64> for &NTP64`: forwards to `Add::add(*self, *other)`. -/
def addRefRef (a b : NTP64) : NTP64 := add a b

/-- `impl Sub<NTP64> for &NTP64`: forwards to `Sub::sub(*self, other)`. -/
def subRefVal (a b : NTP64) : NTP64 := sub a b

/-- `impl Sub<&NTP64> for NTP64`: forwards to `Sub::sub(self, *other)`. -/
def subValRef (a b : NTP64) : NTP64 := sub a b

/-- `impl Sub<&NTP64> for &NTP64`: forwards to `Sub::sub(*self, *other)`. -/
def subRefRef (a b : NTP64) : NTP64 := sub a b

/-- The strict order on NTP64: the derived `Ord`/`PartialOrd` on
`NTP64(pub u64)` compares the single raw `u64` field. -/
def lt (a b : NTP64) : Prop := a.v < b.v

instance : LT NTP64 := ⟨lt⟩

/-- `impl From<Duration> for NTP64`:
`assert!(secs <= MAX_NB_SEC); NTP64((secs << 32) + ((nanos * FRAC_PER_SEC) / NANO_PER_SEC) + 1)`.
The assert is modelled as `none` (panic); the `% 2^64` models the `u64`
arithmetic (provably the identity here). -/
def from_duration (d : Duration) : Option NTP64 :=
  if d.secs ≤ MAX_NB_SEC then
    some ⟨((d.secs <<< 32) + ((d.nanos * FRAC_PER_SEC) / NANO_PER_SEC) + 1) % 2 ^ 64,
          Nat.mod_lt _ (by decide)⟩
  else
    none

end NTP64

/-- Rust `ParseNTP64Error { cause: String }`. -/
structure ParseNTP64Error where
  cause : String
deriving DecidableEq

/-- Strips one optional leading plus sign, as `u64::from_str` accepts
(`from_str_radix`: an optional leading `+` followed by digits). -/
def stripPlus (cs : List Char) : List Char :=
  match cs with
  | [] => []
  | c :: rest => if c = '+' then rest else c :: rest

/-- Accumulates the base-10 value of a character list, most significant
digit first, as `u64::from_str_radix` does. -/
def digitsVal (cs : List Char) : Nat :=
  cs.foldl (fun a c => a * 10 + (c.toNat - 48)) 0

/-- Model of `u64::from_str` (base 10): an optional leading `+`, then one
or more ASCII digits; fails on an empty digit string, any non-digit
character, or a value exceeding `u64::MAX` (the step-wise checked
arithmetic of `from_str_radix` is equivalent to the final bound check). -/
def parseU64 (s : String) : Option Nat :=
  if (stripPlus s.data).isEmpty then none
  else if (stripPlus s.data).all (fun c => c.isDigit) then
    if digitsVal (stripPlus s.data) < 2 ^ 64 then some (digitsVal (stripPlus s.data))
    else none
  else none

theorem parseU64_lt {s : String} {n : Nat} (h : parseU64 s = some n) : n < 2 ^ 64 := by
  unfold parseU64 at h
  split at h
  · exact absurd h (by simp)
  · split at h
    · split at h
      · cases h
        assumption
      · exact absurd h (by simp)
    · exact absurd h (by simp)

namespace NTP64

/-- `impl FromStr for NTP64`:
`u64::from_str(s).map(NTP64).map_err(|_| ParseNTP64Error { cause: format!("Invalid NTP64 time : '{s}' (must be a u64)") })`. -/
def from_str (s : String) : Except ParseNTP64Error NTP64 :=
  match h : parseU64 s with
  | some n => .ok ⟨n, parseU64_lt h⟩
  | none => .error ⟨"Invalid NTP64 time : '" ++ s ++ "' (must be a u64)"⟩

end NTP64

/-- Base-10 digits of `n`, least significant first, computed with a fuel
argument to make the recursion structural (hence executable in the
kernel); `fuel ≥ n` suffices. -/
def toDecRevAux : Nat → Nat → List Nat
  | 0, _ => []
  | fuel + 1, n => if n = 0 then [] else n % 10 :: toDecRevAux fuel (n / 10)

/-- Base-10 digits of `n`, least significant first. -/
def toDecRev (n : Nat) : List Nat := toDecRevAux n n

/-- Decimal rendering of a `u64` value, as Rust `write!(f, "{}", self.0)`
produces: base-10 digits, most significant first, no leading zeros, no
sign, and `"0"` for zero. -/
def u64ToDecimal (v : Nat) : String :=
  if v = 0 then "0"
  else ⟨(toDecRev v).reverse.map fun d => Char.ofNat (48 + d)⟩

namespace NTP64

/-- `impl fmt::Display for NTP64` without the alternate flag: formats the
raw value as an unsigned integer in decimal. -/
def display (t : NTP64) : String := u64ToDecimal t.v

end NTP64

section Helpers

theorem toDecRevAux_eq_digits (fuel n : Nat) (h : n ≤ fuel) :
    toDecRevAux fuel n = Nat.digits 10 n := by
  induction fuel generalizing n with
  | zero =>
    interval_cases n
    simp [toDecRevAux]
  | succ fuel ih =>
    rcases Nat.eq_zero_or_pos n with hn | hn
    · subst hn
      simp [toDecRevAux]
    · rw [toDecRevAux, if_neg (Nat.pos_iff_ne_zero.mp hn),
        Nat.digits_def' (by norm_num : 1 < 10) hn,
        ih (n / 10) (by omega)]

theorem toDecRev_eq_digits (n : Nat) : toDecRev n = Nat.digits 10 n :=
  toDecRevAux_eq_digits n n le_rfl

theorem NTP64.val_inj {a b : NTP64} (h : a.v = b.v) : a = b := by
  cases a
  cases b
  simp only at h
  subst h
  rfl

theorem NTP64.and_frac_mask (x : Nat) : x &&& FRAC_MASK = x % 2 ^ 32 := by
  have : FRAC_MASK = 2 ^ 32 - 1 := by norm_num [FRAC_MASK]
  rw [this, Nat.and_pow_two_sub_one_eq_mod]

theorem NTP64.subsec_nanos_spec (t : NTP64) :
    t.subsec_nanos = ((t.v % 2 ^ 32) * 1000000000) / 2 ^ 32 := by
  have hfps : FRAC_PER_SEC = 4294967296 := by norm_num [FRAC_PER_SEC, Nat.shiftLeft_eq]
  have hnps : NANO_PER_SEC = 1000000000 := rfl
  have h32 : (2 : Nat) ^ 32 = 4294967296 := by norm_num
  unfold subsec_nanos
  rw [NTP64.and_frac_mask, hfps, hnps, h32]
  omega

theorem NTP64.subsec_nanos_lt (t : NTP64) : t.subsec_nanos < 1000000000 := by
  have h32 : (2 : Nat) ^ 32 = 4294967296 := by norm_num
  rw [NTP64.subsec_nanos_spec, h32]
  omega

theorem NTP64.from_duration_val (d : Duration) (hs : d.secs ≤ 2 ^ 32 - 1) :
    ∃ t, NTP64.from_duration d = some t ∧
      t.v = d.secs * 2 ^ 32 + (d.nanos * 2 ^ 32) / 10 ^ 9 + 1 := by
  have hn := d.hnanos
  have hnps : NANO_PER_SEC = 1000000000 := rfl
  rw [hnps] at hn
  have hmax : MAX_NB_SEC = 2 ^ 32 - 1 := by norm_num [MAX_NB_SEC, Nat.shiftLeft_eq]
  have hfps : FRAC_PER_SEC = 4294967296 := by norm_num [FRAC_PER_SEC, Nat.shiftLeft_eq]
  have e1 : (2 : Nat) ^ 32 = 4294967296 := by norm_num
  have e2 : (10 : Nat) ^ 9 = 1000000000 := by norm_num
  have e3 : (2 : Nat) ^ 64 = 18446744073709551616 := by norm_num
  unfold NTP64.from_duration
  rw [hmax, if_pos hs]
  refine ⟨_, rfl, ?_⟩
  show ((d.secs <<< 32) + ((d.nanos * FRAC_PER_SEC) / NANO_PER_SEC) + 1) % 2 ^ 64
      = d.secs * 2 ^ 32 + (d.nanos * 2 ^ 32) / 10 ^ 9 + 1
  rw [Nat.shiftLeft_eq, hfps, hnps, e1, e2, e3]
  rw [e1] at hs
  omega

theorem NTP64.to_duration_normal (t : NTP64) :
    t.to_duration.secs = t.as_secs ∧ t.to_duration.nanos = t.subsec_nanos := by
  have hlt := NTP64.subsec_nanos_lt t
  constructor
  · show t.as_secs + t.subsec_nanos / NANO_PER_SEC = t.as_secs
    have : t.subsec_nanos / NANO_PER_SEC = 0 := Nat.div_eq_of_lt hlt
    omega
  · show t.subsec_nanos % NANO_PER_SEC = t.subsec_nanos
    exact Nat.mod_eq_of_lt hlt

theorem dChar_toNat (d : Nat) (hd : d < 10) : (Char.ofNat (48 + d)).toNat = 48 + d := by
  interval_cases d <;> decide

theorem dChar_isDigit (d : Nat) (hd : d < 10) : (Char.ofNat (48 + d)).isDigit = true := by
  interval_cases d <;> decide

theorem dChar_ne_plus (d : Nat) (hd : d < 10) : Char.ofNat (48 + d) ≠ '+' := by
  interval_cases d <;> decide

theorem foldr_mul_add (L : List Nat) :
    L.foldr (fun d a => a * 10 + d) 0 = Nat.ofDigits 10 L := by
  induction L with
  | nil => rfl
  | cons d L ih =>
    rw [List.foldr_cons, ih, Nat.ofDigits_cons]
    ring

theorem parse_render (v : Nat) (hv : v < 2 ^ 64) :
    parseU64 (u64ToDecimal v) = some v := by
  rcases Nat.eq_zero_or_pos v with h0 | h0
  · subst h0
    decide
  · have hv0 : v ≠ 0 := by omega
    have hrender : u64ToDecimal v
        = ⟨(Nat.digits 10 v).reverse.map fun d => Char.ofNat (48 + d)⟩ := by
      unfold u64ToDecimal
      rw [if_neg hv0, toDecRev_eq_digits]
    have hne : (Nat.digits 10 v).reverse ≠ [] := by
      simp [Nat.digits_ne_nil_iff_ne_zero, hv0]
    obtain ⟨d, tl, hL⟩ := List.exists_cons_of_ne_nil hne
    have hmemd : d ∈ Nat.digits 10 v :=
      List.mem_reverse.mp (by rw [hL]; exact List.mem_cons_self d tl)
    have hd10 : d < 10 := Nat.digits_lt_base (by norm_num) hmemd
    have hdata : (u64ToDecimal v).data
        = Char.ofNat (48 + d) :: (tl.map fun d => Char.ofNat (48 + d)) := by
      rw [hrender]
      show (Nat.digits 10 v).reverse.map (fun d => Char.ofNat (48 + d)) = _
      rw [hL, List.map_cons]
    have hstrip : stripPlus (u64ToDecimal v).data = (u64ToDecimal v).data := by
      rw [hdata]
      simp only [stripPlus]
      rw [if_neg (dChar_ne_plus d hd10)]
    have hAll : ((u64ToDecimal v).data.all fun c => c.isDigit) = true := by
      rw [List.all_eq_true]
      intro c hc
      rw [hrender] at hc
      obtain ⟨d', hd', rfl⟩ := List.mem_map.mp hc
      exact dChar_isDigit d' (Nat.digits_lt_base (by norm_num) (List.mem_reverse.mp hd'))
    have hVal : digitsVal (u64ToDecimal v).data = v := by
      rw [hrender]
      show ((Nat.digits 10 v).reverse.map fun d => Char.ofNat (48 + d)).foldl
          (fun a c => a * 10 + (c.toNat - 48)) 0 = v
      rw [List.foldl_map]
      rw [List.foldl_ext _ (fun (a b : Nat) => a * 10 + b) 0 (fun a b hb => by
        show a * 10 + ((Char.ofNat (48 + b)).toNat - 48) = a * 10 + b
        rw [dChar_toNat b (Nat.digits_lt_base (by norm_num) (List.mem_reverse.mp hb))]
        omega)]
      rw [List.foldl_reverse, foldr_mul_add]
      exact Nat.ofDigits_digits 10 v
    have hnonempty : ((u64ToDecimal v).data.isEmpty) = false := by
      rw [hdata]
      rfl
    unfold parseU64
    rw [hstrip, hnonempty, hAll, hVal, if_pos hv]
    rfl

theorem NTP64.from_str_eq_ok {s : String} {n : Nat} (h : parseU64 s = some n)
    (hn : n < 2 ^ 64) : NTP64.from_str s = .ok ⟨n, hn⟩ := by
  unfold NTP64.from_str
  split
  · rename_i m hm
    rw [h] at hm
    cases hm
    rfl
  · rename_i hm
    rw [h] at hm
    cases hm

theorem NTP64.from_str_eq_error {s : String} (h : parseU64 s = none) :
    NTP64.from_str s = .error ⟨"Invalid NTP64 time : '" ++ s ++ "' (must be a u64)"⟩ := by
  unfold NTP64.from_str
  split
  · rename_i m hm
    rw [h] at hm
    cases hm
  · rfl

end Helpers

/-- C4: for every NTP64 value `t` with fraction part `f = as_u64 t % 2^32`,
`subsec_nanos t` equals the truncating division `(f * 10^9) / 2^32`; the
operation is total (defined for every `t`). -/
theorem c4_subsec_nanos (t : NTP64) :
    t.subsec_nanos = ((t.as_u64 % 2 ^ 32) * 10 ^ 9) / 2 ^ 32 := by
  rw [NTP64.subsec_nanos_spec]
  norm_num [NTP64.as_u64]

/-- C3: the conversion from a duration succeeds (the Rust `assert!` does
not panic) exactly when the integral seconds are at most `2^32 - 1`;
otherwise it is the modelled panic (`none`), never an error value. -/
theorem c3_seconds_range (d : Duration) :
    (∃ t, NTP64.from_duration d = some t) ↔ d.secs ≤ 2 ^ 32 - 1 := by
  have hmax : MAX_NB_SEC = 2 ^ 32 - 1 := by norm_num [MAX_NB_SEC, Nat.shiftLeft_eq]
  unfold NTP64.from_duration
  rw [hmax]
  constructor
  · intro ⟨t, ht⟩
    by_contra hc
    rw [if_neg hc] at ht
    exact Option.noConfusion ht
  · intro h
    rw [if_pos h]
    exact ⟨_, rfl⟩

/-- C5: addition and subtraction of two NTP64 values, and of an NTP64 and
a raw u64 offset, are defined for all operands and equal the exact integer
sum or difference reduced modulo 2^64 (wraparound semantics). -/
theorem c5_wraparound (a b : NTP64) (k : Nat) (hk : k < 2 ^ 64) :
    (((a.add b).v : Int) = ((a.v : Int) + (b.v : Int)) % 2 ^ 64) ∧
    (((a.sub b).v : Int) = ((a.v : Int) - (b.v : Int)) % 2 ^ 64) ∧
    (((a.addU64 k).v : Int) = ((a.v : Int) + (k : Int)) % 2 ^ 64) ∧
    (((a.subU64 k).v : Int) = ((a.v : Int) - (k : Int)) % 2 ^ 64) := by
  have ha := a.hv
  have hb := b.hv
  have hn : (2 : Nat) ^ 64 = 18446744073709551616 := by norm_num
  have hi : (2 : Int) ^ 64 = 18446744073709551616 := by norm_num
  unfold NTP64.add NTP64.sub NTP64.addU64 NTP64.subU64 NTP64.wrapAdd64 NTP64.wrapSub64
  simp only [hn, hi] at *
  refine ⟨by omega, by omega, by omega, by omega⟩

/-- C5 witness: the wraparound law applied at concrete operands. -/
theorem c5_wraparound_witness :
    ((((NTP64.mk 5 (by decide)).add (NTP64.mk 7 (by decide))).v : Int)
      = ((5 : Int) + (7 : Int)) % 2 ^ 64) ∧
    ((((NTP64.mk 5 (by decide)).sub (NTP64.mk 7 (by decide))).v : Int)
      = ((5 : Int) - (7 : Int)) % 2 ^ 64) ∧
    ((((NTP64.mk 5 (by decide)).addU64 3).v : Int) = ((5 : Int) + (3 : Int)) % 2 ^ 64) ∧
    ((((NTP64.mk 5 (by decide)).subU64 3).v : Int) = ((5 : Int) - (3 : Int)) % 2 ^ 64) :=
  c5_wraparound (NTP64.mk 5 (by decide)) (NTP64.mk 7 (by decide)) 3 (by decide)

/-- C6: every borrowed-operand form of addition and subtraction returns
exactly the same result as the canonical by-value implementation. -/
theorem c6_ref_ops_coherent (a b : NTP64) :
    a.addRefVal b = a.add b ∧ a.addValRef b = a.add b ∧ a.addRefRef b = a.add b ∧
    a.subRefVal b = a.sub b ∧ a.subValRef b = a.sub b ∧ a.subRefRef b = a.sub b :=
  ⟨rfl, rfl, rfl, rfl, rfl, rfl⟩

/-- C7: the order on NTP64 is exactly unsigned 64-bit integer order on the
raw value, equality is raw-value equality, and the order is trichotomous:
for any pair exactly one of less-than, equality, greater-than holds. -/
theorem c7_order (a b : Nat) (ha : a < 2 ^ 64) (hb : b < 2 ^ 64) :
    ((a < b) ↔ NTP64.lt ⟨a, ha⟩ ⟨b, hb⟩) ∧
    ((a = b) ↔ (⟨a, ha⟩ : NTP64) = ⟨b, hb⟩) ∧
    ((NTP64.lt ⟨a, ha⟩ ⟨b, hb⟩ ∧ ¬(⟨a, ha⟩ : NTP64) = ⟨b, hb⟩ ∧ ¬NTP64.lt ⟨b, hb⟩ ⟨a, ha⟩) ∨
     (¬NTP64.lt ⟨a, ha⟩ ⟨b, hb⟩ ∧ (⟨a, ha⟩ : NTP64) = ⟨b, hb⟩ ∧ ¬NTP64.lt ⟨b, hb⟩ ⟨a, ha⟩) ∨
     (¬NTP64.lt ⟨a, ha⟩ ⟨b, hb⟩ ∧ ¬(⟨a, ha⟩ : NTP64) = ⟨b, hb⟩ ∧ NTP64.lt ⟨b, hb⟩ ⟨a, ha⟩)) := by
  have heq : ((⟨a, ha⟩ : NTP64) = ⟨b, hb⟩) ↔ a = b := by
    constructor
    · intro h
      exact congrArg NTP64.v h
    · intro h
      exact NTP64.val_inj h
  refine ⟨Iff.rfl, heq.symm, ?_⟩
  rcases Nat.lt_trichotomy a b with h | h | h
  · exact Or.inl ⟨h, fun hc => absurd (heq.mp hc) (by omega),
      fun hc => absurd (show b < a from hc) (by omega)⟩
  · exact Or.inr (Or.inl ⟨fun hc => absurd (show a < b from hc) (by omega), heq.mpr h,
      fun hc => absurd (show b < a from hc) (by omega)⟩)
  · exact Or.inr (Or.inr ⟨fun hc => absurd (show a < b from hc) (by omega),
      fun hc => absurd (heq.mp hc) (by omega), h⟩)

/-- C7 witness: the order characterization applied at concrete raw values. -/
theorem c7_order_witness :
    ((3 < 12) ↔ NTP64.lt ⟨3, by decide⟩ ⟨12, by decide⟩) ∧
    ((3 = 12) ↔ (⟨3, by decide⟩ : NTP64) = ⟨12, by decide⟩) ∧
    ((NTP64.lt ⟨3, by decide⟩ ⟨12, by decide⟩ ∧ ¬(⟨3, by decide⟩ : NTP64) = ⟨12, by decide⟩ ∧
        ¬NTP64.lt ⟨12, by decide⟩ ⟨3, by decide⟩) ∨
     (¬NTP64.lt ⟨3, by decide⟩ ⟨12, by decide⟩ ∧ (⟨3, by decide⟩ : NTP64) = ⟨12, by decide⟩ ∧
        ¬NTP64.lt ⟨12, by decide⟩ ⟨3, by decide⟩) ∨
     (¬NTP64.lt ⟨3, by decide⟩ ⟨12, by decide⟩ ∧ ¬(⟨3, by decide⟩ : NTP64) = ⟨12, by decide⟩ ∧
        NTP64.lt ⟨12, by decide⟩ ⟨3, by decide⟩)) :=
  c7_order 3 12 (by decide) (by decide)

/-- C10: the subsecond accessor always returns less than 10^9
nanoseconds, so the duration built by to_duration is in normal form: its
seconds equal as_secs and its nanoseconds equal subsec_nanos, with no
carry from the nanosecond component. -/
theorem c10_no_carry (t : NTP64) :
    t.subsec_nanos < 1000000000 ∧
    (t.to_duration).secs = t.as_secs ∧ (t.to_duration).nanos = t.subsec_nanos := by
  have hlt := NTP64.subsec_nanos_lt t
  refine ⟨hlt, ?_, ?_⟩
  · show t.as_secs + t.subsec_nanos / NANO_PER_SEC = t.as_secs
    have : t.subsec_nanos / NANO_PER_SEC = 0 := by
      apply Nat.div_eq_of_lt
      norm_num [NANO_PER_SEC]
      exact hlt
    omega
  · show t.subsec_nanos % NANO_PER_SEC = t.subsec_nanos
    apply Nat.mod_eq_of_lt
    norm_num [NANO_PER_SEC]
    exact hlt

/-- C2: for a duration with seconds `s ≤ 2^32 - 1` and subsecond
nanoseconds `n < 10^9`, the conversion returns the NTP64 whose raw value
is `s * 2^32 + (n * 2^32) / 10^9 + 1`: the seconds shifted into the top 32
bits, the truncated fixed-point fraction, plus one. -/
theorem c2_from_duration (d : Duration) (hs : d.secs ≤ 2 ^ 32 - 1) :
    ∃ t, NTP64.from_duration d = some t ∧
      t.v = d.secs * 2 ^ 32 + (d.nanos * 2 ^ 32) / 10 ^ 9 + 1 :=
  NTP64.from_duration_val d hs

/-- C2 witness: the conversion law applied to the concrete duration of
10000 seconds and 500000000 nanoseconds. -/
theorem c2_from_duration_witness :
    ∃ t, NTP64.from_duration ⟨10000, 500000000, by decide⟩ = some t ∧
      t.v = 10000 * 2 ^ 32 + (500000000 * 2 ^ 32) / 10 ^ 9 + 1 :=
  c2_from_duration ⟨10000, 500000000, by decide⟩ (by decide)

/-- C8: converting a duration to NTP64 is not exactly inverted by
to_duration (witnessed by the raw value 0), but for every in-range
duration the round trip through NTP64 preserves the seconds exactly and
the nanoseconds to within one unit. -/
theorem c8_duration_roundtrip (d : Duration) (hs : d.secs ≤ 2 ^ 32 - 1) :
    (∃ t0 : NTP64, NTP64.from_duration t0.to_duration ≠ some t0) ∧
    ∃ t, NTP64.from_duration d = some t ∧
      t.to_duration.secs = d.secs ∧
      t.to_duration.nanos ≤ d.nanos + 1 ∧ d.nanos ≤ t.to_duration.nanos + 1 := by
  constructor
  · refine ⟨⟨0, by decide⟩, fun h => ?_⟩
    have h1 : NTP64.from_duration (NTP64.to_duration ⟨0, by decide⟩)
        = some ⟨1, by decide⟩ := by decide
    rw [h1] at h
    have h2 : (1 : Nat) = 0 := congrArg NTP64.v (Option.some.inj h)
    exact absurd h2 (by decide)
  · obtain ⟨t, ht, hv⟩ := NTP64.from_duration_val d hs
    obtain ⟨hds, hdn⟩ := NTP64.to_duration_normal t
    have hn := d.hnanos
    have hnps : NANO_PER_SEC = 1000000000 := rfl
    rw [hnps] at hn
    have e1 : (2 : Nat) ^ 32 = 4294967296 := by norm_num
    have e2 : (10 : Nat) ^ 9 = 1000000000 := by norm_num
    rw [e1, e2] at hv
    rw [e1] at hs
    obtain ⟨q, hq⟩ : ∃ q, d.nanos * 4294967296 / 1000000000 = q := ⟨_, rfl⟩
    have hqlt : q < 4294967295 := by omega
    have hq9 : 1000000000 * q ≤ d.nanos * 4294967296 ∧
        d.nanos * 4294967296 < 1000000000 * (q + 1) := by omega
    rw [hq] at hv
    have hsecs : t.as_secs = d.secs := by
      unfold NTP64.as_secs
      rw [Nat.shiftRight_eq_div_pow, e1, hv]
      clear hq hq9 hn hds hdn ht
      omega
    have hmod : (d.secs * 4294967296 + q + 1) % 4294967296 = q + 1 := by
      clear hq hq9 hn hds hdn ht
      omega
    have hnanos : t.subsec_nanos = d.nanos := by
      rw [NTP64.subsec_nanos_spec, e1, hv, hmod]
      clear hq hds hdn ht hsecs hmod hv hs
      omega
    exact ⟨t, ht, by omega, by omega, by omega⟩

/-- C8 witness: the round trip applied to the concrete duration of 10000
seconds and 500000000 nanoseconds (spec scenario 4). -/
theorem c8_duration_roundtrip_witness :
    (∃ t0 : NTP64, NTP64.from_duration t0.to_duration ≠ some t0) ∧
    ∃ t, NTP64.from_duration ⟨10000, 500000000, by decide⟩ = some t ∧
      t.to_duration.secs = 10000 ∧
      t.to_duration.nanos ≤ 500000000 + 1 ∧ 500000000 ≤ t.to_duration.nanos + 1 :=
  c8_duration_roundtrip ⟨10000, 500000000, by decide⟩ (by decide)

/-- C1: decimal codec round-trip: for every raw 64-bit value `v`,
rendering `NTP64 v` in the default decimal Display form and parsing the
resulting string back with from_str succeeds and returns exactly
`NTP64 v`. -/
theorem c1_decimal_roundtrip (v : Nat) (hv : v < 2 ^ 64) :
    NTP64.from_str (NTP64.display ⟨v, hv⟩) = .ok ⟨v, hv⟩ :=
  NTP64.from_str_eq_ok (parse_render v hv) hv

/-- C1 witness: the round trip applied to the concrete raw value from the
spec (scenario 1). -/
theorem c1_decimal_roundtrip_witness :
    NTP64.from_str (NTP64.display ⟨7386690599959157260, by decide⟩)
      = .ok ⟨7386690599959157260, by decide⟩ :=
  c1_decimal_roundtrip 7386690599959157260 (by decide)

/-- C9 counterexample: the string "+1" contains a character that is not a
digit, so the claim as stated requires from_str to return a parse error on
it, yet from_str accepts it and returns NTP64(1) (u64 parsing admits an
optional leading plus sign). -/
theorem c9_counterexample :
    ('+' ∈ "+1".data ∧ '+'.isDigit = false) ∧
    NTP64.from_str "+1" = .ok ⟨1, by decide⟩ := by
  constructor
  · decide
  · exact NTP64.from_str_eq_ok (by decide) (by decide)

/-- C9 (amended): for every string that is not an optional leading plus
sign followed by a non-empty run of ASCII digits denoting a value at most
2^64 - 1, from_str returns a parse error whose cause states the input
must be a u64 (the substring "must be a u64" occurs in the cause). -/
theorem c9_parse_error (s : String)
    (h : stripPlus s.data = [] ∨ (∃ c ∈ stripPlus s.data, c.isDigit = false) ∨
         2 ^ 64 ≤ digitsVal (stripPlus s.data)) :
    ∃ e, NTP64.from_str s = .error e ∧
      e.cause = "Invalid NTP64 time : '" ++ s ++ "' (must be a u64)" ∧
      ("must be a u64").data <:+: e.cause.data := by
  have hp : parseU64 s = none := by
    unfold parseU64
    by_cases hA : (stripPlus s.data).isEmpty = true
    · rw [if_pos hA]
    · rw [if_neg hA]
      by_cases hB : ((stripPlus s.data).all fun c => c.isDigit) = true
      · rw [if_pos hB, if_neg]
        rcases h with h | ⟨c, hc, hcd⟩ | h
        · exact absurd (by rw [h]; rfl) hA
        · rw [List.all_eq_true] at hB
          have hcontra := hB c hc
          rw [hcd] at hcontra
          exact absurd hcontra (by decide)
        · omega
      · rw [if_neg hB]
  have hsplit : ("' (").data ++ (("must be a u64").data ++ (")").data)
      = ("' (must be a u64)").data := by decide
  refine ⟨_, NTP64.from_str_eq_error hp, rfl, ?_⟩
  refine ⟨("Invalid NTP64 time : '" ++ s ++ "' (").data, (")").data, ?_⟩
  simp only [String.data_append, List.append_assoc]
  rw [hsplit]

/-- C9 witness: the amended statement applied to the concrete string
"abc" (spec scenario 2). -/
theorem c9_parse_error_witness :
    (stripPlus "abc".data = [] ∨ (∃ c ∈ stripPlus "abc".data, c.isDigit = false) ∨
        2 ^ 64 ≤ digitsVal (stripPlus "abc".data)) ∧
    ∃ e, NTP64.from_str "abc" = .error e ∧
      e.cause = "Invalid NTP64 time : '" ++ "abc" ++ "' (must be a u64)" ∧
      ("must be a u64").data <:+: e.cause.data :=
  ⟨by decide, c9_parse_error "abc" (by decide)⟩

example : NTP64.from_str "123" = .ok ⟨123, by decide⟩ := by rfl
example : u64ToDecimal 907 = "907" := by decide
example : parseU64 (u64ToDecimal 907) = some 907 := by decide
example : parseU64 "+41" = some 41 := by decide
example : parseU64 "abc" = none := by decide
example : parseU64 "" = none := by decide
